import Mathlib

set_option autoImplicit false

/-!
Verification of the YAML processor core (`fearthecowboy/yaml`) against its
natural-language specification.  Each section shallowly embeds one source
file's relevant functions; theorems at the end settle the spec claims.
-/

namespace YamlSpec

/-! ## Node model (src/nodes/Alias.ts and the document tree it walks)

A document tree node.  Every scalar/sequence/mapping node may carry an
`anchor` label; `Alias` nodes never do (the class declares
`anchor?: never`).  JavaScript object identity (`===`) is modelled by a
numeric `id` carried on every node; a well-formed document's traversal has
pairwise distinct ids.  `Pair` objects (not Nodes in the source) and JS
`null` slots are folded into the same inductive for uniform recursion. -/
mutual
inductive YNode where
  | scalar (id : Nat) (anchor : Option String)
  | aliasN (id : Nat) (source : String)
  | nullN
  | pair (key : YNode) (value : YNode)
  | seq (id : Nat) (anchor : Option String) (items : YItems)
  | map (id : Nat) (anchor : Option String) (items : YItems)

inductive YItems where
  | nil
  | cons (head : YNode) (tail : YItems)
end

/-- The `id` modelling object identity (pairs and null never take part in
identity comparisons below; they are given id 0). -/
def nodeId : YNode → Nat
  | .scalar i _ => i
  | .aliasN i _ => i
  | .seq i _ _ => i
  | .map i _ _ => i
  | .nullN => 0
  | .pair _ _ => 0

/-- The node's `anchor` property; alias nodes, pairs and null have none. -/
def nodeAnchor : YNode → Option String
  | .scalar _ a => a
  | .seq _ a _ => a
  | .map _ a _ => a
  | _ => none

/-- A document holds an optional `contents` root node. -/
structure YDoc where
  contents : Option YNode

mutual
/-- Modelled from the spec: `visit` (src/visit.ts is not under src/) walks
the document "in source order", i.e. preorder: a node precedes its
children; a map pair contributes its key then its value.  The `Node`
callback used by `Alias.resolve` fires only on actual nodes, so pairs and
null slots contribute no entry of their own. -/
def preorder : YNode → List YNode
  | .scalar i a => [.scalar i a]
  | .aliasN i s => [.aliasN i s]
  | .nullN => []
  | .pair k v => preorder k ++ preorder v
  | .seq i a items => .seq i a items :: preorderItems items
  | .map i a items => .map i a items :: preorderItems items

def preorderItems : YItems → List YNode
  | .nil => []
  | .cons n rest => preorder n ++ preorderItems rest
end

/-- The visit order of a whole document. -/
def docPreorder (d : YDoc) : List YNode :=
  match d.contents with
  | none => []
  | some n => preorder n

/-- The loop of `Alias.resolve`: walk the visit order; on reaching the
alias itself (`node === this`, modelled by id) stop and return what was
found so far; otherwise record any node whose `anchor` equals the alias's
`source`. -/
def resolveGo (aliasId : Nat) (src : String) : List YNode → Option YNode → Option YNode
  | [], found => found
  | n :: rest, found =>
    if nodeId n = aliasId then found
    else resolveGo aliasId src rest (if nodeAnchor n = some src then some n else found)

/-- `Alias.resolve(doc)`: the last instance of the `source` anchor before
this node in the document's visit order. -/
def resolveAlias (doc : YDoc) (aliasId : Nat) (src : String) : Option YNode :=
  resolveGo aliasId src (docPreorder doc) none

/-- One entry of the `ToJSContext.anchors` map: reference `count`, cached
alias-subtree size `aliasCount`, and the resolved result `res` (`none`
models JavaScript `undefined`; the payload is an abstract value handle). -/
structure AliasData where
  count : Nat
  aliasCount : Nat
  res : Option Nat
deriving Repr, DecidableEq

/-- The anchors map, keyed by the anchored node's identity. -/
abbrev Anchors := List (Nat × AliasData)

/-- `anchors.get(node)`. -/
def anchorsGet (anchors : Anchors) (id : Nat) : Option AliasData :=
  List.lookup id anchors

/-- In-place mutation of the entry for `id` (JS mutates the data object). -/
def anchorsSet (anchors : Anchors) (id : Nat) (d : AliasData) : Anchors :=
  List.map (fun p => if p.1 = id then (id, d) else p) anchors

mutual
/-- `getAliasCount(doc, node, anchors)` from src/nodes/Alias.ts: an alias
contributes its anchor entry's `count * aliasCount` (0 when missing), a
collection the maximum over its items, a pair the maximum of key and
value, and anything else (scalars, `null`) 1. -/
def getAliasCount (doc : YDoc) (anchors : Anchors) : YNode → Nat
  | .aliasN i s =>
    match resolveGo i s (docPreorder doc) none with
    | some src =>
      match anchorsGet anchors (nodeId src) with
      | some a => a.count * a.aliasCount
      | none => 0
    | none => 0
  | .seq _ _ items => getAliasCountItems doc anchors items
  | .map _ _ items => getAliasCountItems doc anchors items
  | .pair k v => max (getAliasCount doc anchors k) (getAliasCount doc anchors v)
  | .scalar _ _ => 1
  | .nullN => 1

def getAliasCountItems (doc : YDoc) (anchors : Anchors) : YItems → Nat
  | .nil => 0
  | .cons n rest =>
    max (getAliasCount doc anchors n) (getAliasCountItems doc anchors rest)
end

/-- The typed reference errors `Alias.toJSON` can throw. -/
inductive ToJSErr where
  | unresolvedAlias
  | notResolved
  | excessiveAlias
deriving Repr, DecidableEq

/-- `Alias.toJSON(_, ctx)` for an alias with identity `aliasId` and label
`src`: resolve the source; fail if unresolved or its anchor entry is
absent or has undefined `res`; when `maxAliasCount >= 0` increment the
entry's `count`, compute `aliasCount` lazily, and fail with the
excessive-alias error when `count * aliasCount > maxAliasCount`;
otherwise return `res` (with the mutated anchors map). -/
def aliasToJSON (doc : YDoc) (aliasId : Nat) (src : String) (anchors : Anchors)
    (maxAliasCount : Int) : Except ToJSErr (Nat × Anchors) :=
  match resolveGo aliasId src (docPreorder doc) none with
  | none => .error .unresolvedAlias
  | some source =>
    match anchorsGet anchors (nodeId source) with
    | none => .error .notResolved
    | some data =>
      match data.res with
      | none => .error .notResolved
      | some r =>
        if 0 ≤ maxAliasCount then
          let count := data.count + 1
          let aliasCount :=
            if data.aliasCount = 0 then getAliasCount doc anchors source
            else data.aliasCount
          if ((count * aliasCount : Nat) : Int) > maxAliasCount then
            .error .excessiveAlias
          else
            .ok (r, anchorsSet anchors (nodeId source)
              { count := count, aliasCount := aliasCount, res := data.res })
        else .ok (r, anchors)

/-- Errors `Alias.toString` can throw. -/
inductive StrErr where
  | invalidAnchor
  | unresolvedAlias
deriving Repr, DecidableEq

/-- The stringification context seen by `Alias.toString`: the
`verifyAliasOrder` option, the set of anchors emitted so far, and whether
the alias is being emitted as an implicit key. -/
structure StrCtx where
  verifyAliasOrder : Bool
  anchors : List String
  implicitKey : Bool
deriving Repr, DecidableEq

/-- Modelled from the spec: `anchorIsValid` lives in src/doc/anchors.ts,
which is not under src/.  The spec treats anchor labels as plain names
(`&label`), so validity is modelled as: non-empty and free of whitespace,
control characters and flow indicators. -/
def anchorIsValid (s : String) : Bool :=
  s ≠ "" && s.toList.all (fun c =>
    !(c = ',' || c = '[' || c = ']' || c.toNat = 123 || c.toNat = 125 ||
      c = ' ' || c = '\t' || c = '\n' || c = '\r' || c.toNat ≤ 25))

/-- `Alias.toString(ctx)`: render `*source`; with a context, check the
anchor label, optionally (under `verifyAliasOrder`) require the anchor to
have been emitted already, and append a space when used as an implicit
key. -/
def aliasToString (src : String) (ctx : Option StrCtx) : Except StrErr String :=
  let s := "*" ++ src
  match ctx with
  | none => .ok s
  | some c =>
    if !anchorIsValid src then .error .invalidAnchor
    else if c.verifyAliasOrder && !(c.anchors.contains src) then .error .unresolvedAlias
    else if c.implicitKey then .ok (s ++ " ")
    else .ok s

/-! ## YAMLSeq operations (src/nodes/YAMLSeq.ts, provided as src/unnamed/part_001) -/

/-- A JavaScript value as far as `asItemIndex` and the sequence operations
inspect it: integer numbers, non-integer finite numbers, NaN, strings,
booleans, null, undefined and other objects (by identity). -/
inductive JSVal where
  | int (n : Int)
  | nonIntNum
  | nan
  | str (s : String)
  | bool (b : Bool)
  | nullv
  | undef
  | obj (id : Nat)
deriving Repr, DecidableEq

/-- JavaScript truthiness. -/
def truthy : JSVal → Bool
  | .int n => n != 0
  | .nonIntNum => true
  | .nan => false
  | .str s => s != ""
  | .bool b => b
  | .nullv => false
  | .undef => false
  | .obj _ => true

/-- Whitespace for `Number()` trimming. -/
def jsWs (c : Char) : Bool :=
  c = ' ' || c = '\t' || c = '\n' || c = '\r'

/-- Value of a list of decimal digits. -/
def digitsVal (l : List Char) : Nat :=
  l.foldl (fun a c => a * 10 + (c.toNat - 48)) 0

/-- Modelled from the spec: `Number(string)` is a JavaScript builtin, not
repository code.  Modelled on its decimal-integer fragment: optional
surrounding whitespace, an optional sign and decimal digits yield the
corresponding integer; a whitespace-only string yields 0; anything else
(fractions, exponents, hex, words) is modelled as NaN. -/
def jsNumberOfString (s : String) : JSVal :=
  let t := ((s.toList.dropWhile jsWs).reverse.dropWhile jsWs).reverse
  if t = [] then .int 0
  else
    let signDigits : Int × List Char :=
      match t with
      | '-' :: rest => (-1, rest)
      | '+' :: rest => (1, rest)
      | _ => (1, t)
    if signDigits.2 ≠ [] ∧ signDigits.2.all Char.isDigit then
      .int (signDigits.1 * (digitsVal signDigits.2 : Int))
    else .nan

/-- A key passed to the sequence operations: either a plain JS value or a
value wrapped in a `Scalar` node. -/
inductive SeqKey where
  | plain (v : JSVal)
  | scalarK (v : JSVal)
deriving Repr, DecidableEq

/-- `asItemIndex(key)`: unwrap a `Scalar`; convert a truthy string through
`Number`; accept only non-negative integer numbers. -/
def asItemIndex (key : SeqKey) : Option Nat :=
  let idx0 : JSVal := match key with | .plain v => v | .scalarK v => v
  let idx : JSVal :=
    match idx0 with
    | .str s => if truthy (.str s) then jsNumberOfString s else .str s
    | v => v
  match idx with
  | .int n => if 0 ≤ n then some n.toNat else none
  | _ => none

/-- An item stored in a `YAMLSeq`: a `Scalar` node wrapping a value, a raw
JS value, or some other (non-scalar) node. -/
inductive JItem where
  | scalarNode (id : Nat) (value : JSVal)
  | plainVal (v : JSVal)
  | collNode (id : Nat)
deriving Repr, DecidableEq

/-- `isScalar(item)`. -/
def jitemIsScalar : JItem → Bool
  | .scalarNode _ _ => true
  | _ => false

/-- Modelled from the spec: `isScalarValue` lives in src/nodes/Scalar.ts,
which is not under src/; a scalar value is anything that is not an object
node (falsy values and primitives qualify). -/
def isScalarValue : JItem → Bool
  | .plainVal (.obj _) => false
  | .plainVal _ => true
  | _ => false

/-- The result of `YAMLSeq.get`: the item itself, or the value unwrapped
from a wrapping `Scalar`. -/
inductive GetRes where
  | item (it : JItem)
  | value (v : JSVal)
deriving Repr, DecidableEq

/-- `YAMLSeq.get(key, keepScalar)`. -/
def seqGet (items : List JItem) (key : SeqKey) (keepScalar : Bool) : Option GetRes :=
  match asItemIndex key with
  | none => none
  | some idx =>
    match items.get? idx with
    | none => none
    | some it => if !keepScalar && jitemIsScalar it then
        match it with
        | .scalarNode _ v => some (.value v)
        | _ => some (.item it)
      else some (.item it)

/-- `YAMLSeq.has(key)`. -/
def seqHas (items : List JItem) (key : SeqKey) : Bool :=
  match asItemIndex key with
  | some idx => idx < items.length
  | none => false

/-- `YAMLSeq.delete(key)`: splice out the item; `true` iff something was
removed. -/
def seqDelete (items : List JItem) (key : SeqKey) : Bool × List JItem :=
  match asItemIndex key with
  | none => (false, items)
  | some idx =>
    if idx < items.length then (true, items.eraseIdx idx) else (false, items)

/-- `YAMLSeq.set(key, value)`: throws on an invalid index; mutates a
`Scalar` in place when both sides are scalar; otherwise assigns the slot
(extending the array as JavaScript does). -/
def seqSet (items : List JItem) (key : SeqKey) (value : JItem) :
    Except String (List JItem) :=
  match asItemIndex key with
  | none => .error "Expected a valid index"
  | some idx =>
    match items.get? idx with
    | some (.scalarNode id _) =>
      if isScalarValue value then
        match value with
        | .plainVal v => .ok (items.set idx (.scalarNode id v))
        | _ => .ok (items.set idx value)
      else .ok (items.set idx value)
    | some _ => .ok (items.set idx value)
    | none => .ok (items ++ List.replicate (idx - items.length) (.plainVal .undef) ++ [value])

/-! ## Flow collection composition (src/compose/resolve-flow-collection.ts)

The composer's `resolveFlowCollection` is a loop over the flow
collection's item tokens.  Composed child nodes are opaque to the loop,
so node-producing tokens carry the composed node's data (`NodeMeta`). -/

/-- Node properties extracted by `getProps()`. -/
structure FProps where
  spaceBefore : Bool
  comment : String
  anchor : String
  tagName : String
deriving Repr, DecidableEq

/-- Data of a token that `composeNode` would turn into a node: the token's
source offset, whether it contains a newline (`containsNewline`), an
identity for the composed node, the composed node's end offset
(`range[1]`), and whether it is a block-map/block-seq token. -/
structure NodeMeta where
  offset : Nat
  hasNewline : Bool
  id : Nat
  endOffset : Nat
  isBlock : Bool
deriving Repr, DecidableEq

/-- A node as the flow-collection resolver handles it: a composed child, an
empty node made by `composeEmptyNode`, or a `YAMLMap` the resolver itself
creates to wrap a pair. -/
inductive FNode where
  | composed (id : Nat) (rstart rend : Nat) (props : FProps) (comment : Option String)
  | emptyNode (offset : Nat) (props : FProps) (comment : Option String)
  | wrapMap (fl : Bool) (range : Option (Nat × Nat))
      (pairs : List (FNode × Option FNode)) (comment : Option String)

/-- `node.comment = c`. -/
def setComment (c : String) : FNode → FNode
  | .composed i a b p _ => .composed i a b p (some c)
  | .emptyNode o p _ => .emptyNode o p (some c)
  | .wrapMap f r ps _ => .wrapMap f r ps (some c)

/-- `node.range[0]` (0 when the node has no range). -/
def fnodeRangeStart : FNode → Nat
  | .composed _ a _ _ _ => a
  | .emptyNode o _ _ => o
  | .wrapMap _ r _ _ => (r.getD (0, 0)).1

/-- `node.range[1]` (0 when the node has no range). -/
def fnodeRangeEnd : FNode → Nat
  | .composed _ _ b _ _ => b
  | .emptyNode o _ _ => o
  | .wrapMap _ r _ _ => (r.getD (0, 0)).2

/-- An entry of the collection being built: a node, or a `Pair` (pushed
bare only into maps and after an explicit-key indicator). -/
inductive FlowItem where
  | node (n : FNode)
  | pairI (key : FNode) (value : Option FNode)

/-- `true` on a `Pair` entry (`isPair`). -/
def flowItemIsPair : FlowItem → Bool
  | .pairI _ _ => true
  | .node _ => false

/-- Error codes `resolveFlowCollection` can report. -/
inductive ECode where
  | commentSpace
  | impossible
  | multipleAnchors
  | multipleTags
  | tagResolveFailed
  | propBeforeSep
  | blockAsImplicitKey
  | multilineImplicitKey
  | keyOver1024Chars
  | unexpectedToken
  | blockInFlow
  | missingChar
deriving Repr, DecidableEq

/-- The item tokens of a flow collection.  Source tokens carry their source
text; node-producing tokens (flow scalars, nested flow collections, and —
erroneously — block collections) carry `NodeMeta`.  A tag token also
carries the result of `ctx.directives.tagName` (not under src/), i.e. the
resolved tag name or `none` after a resolution failure. -/
inductive FTok where
  | space (src : String)
  | commentTok (src : String)
  | newline (src : String)
  | anchorTok (src : String)
  | tagTok (src : String) (resolved : Option String)
  | explicitKeyInd (src : String)
  | mapValueInd (src : String)
  | commaTok (src : String)
  | nodeTok (meta : NodeMeta)

/-- The mutable state of the `resolveFlowCollection` loop. -/
structure FlowState where
  key : Option FNode
  value : Option FNode
  spaceBefore : Bool
  comment : String
  hasSpace : Bool
  newlines : String
  anchor : String
  tagName : String
  offset : Nat
  atLineStart : Bool
  atExplicitKey : Bool
  atValueEnd : Bool
  nlAfterValueInSeq : Bool
  seqKeyToken : Option NodeMeta
  items : List FlowItem
  errors : List (Nat × ECode)

/-- `onError(offset, code, msg)`. -/
def pushErr (s : FlowState) (code : ECode) : FlowState :=
  { s with errors := s.errors ++ [(s.offset, code)] }

/-- `offset += token.source.length` for source tokens. -/
def advance (s : FlowState) (src : String) : FlowState :=
  { s with offset := s.offset + src.length }

/-- `getProps()`: capture the pending properties and reset them. -/
def getProps (s : FlowState) : FProps × FlowState :=
  ({ spaceBefore := s.spaceBefore, comment := s.comment,
     anchor := s.anchor, tagName := s.tagName },
   { s with spaceBefore := false, comment := "", newlines := "",
            anchor := "", tagName := "" })

/-- `addItem(pos)`: materialise an empty value if none was composed, attach
a pending comment, and push either a `Pair` (maps and explicit keys), a
single-pair flow `YAMLMap` wrapper (implicit pair in a sequence), or the
bare node. -/
def addItem (isMap : Bool) (s : FlowState) : FlowState :=
  let vs : FNode × FlowState :=
    match s.value with
    | some v => (if s.comment ≠ "" then setComment s.comment v else v, s)
    | none =>
      let ps := getProps s
      (FNode.emptyNode ps.2.offset ps.1 none, ps.2)
  let v := vs.1
  let s1 := vs.2
  let item : FlowItem :=
    if isMap || s1.atExplicitKey then
      match s1.key with
      | some k => .pairI k (some v)
      | none => .pairI v none
    else
      match s1.key with
      | some k => .node (FNode.wrapMap true none [(k, some v)] none)
      | none => .node v
  { s1 with items := s1.items ++ [item] }

/-- Attach a trailing comment to the collection's last item (the
`atValueEnd` branch of the newline case). -/
def setTrailingComment (s : FlowState) (c : String) : FlowState :=
  match s.items.getLast? with
  | none => pushErr s .impossible
  | some (.node n) =>
    { s with items := s.items.dropLast ++ [.node (setComment c n)] }
  | some (.pairI k (some v)) =>
    { s with items := s.items.dropLast ++ [.pairI k (some (setComment c v))] }
  | some (.pairI k none) =>
    { s with items := s.items.dropLast ++ [.pairI (setComment c k) none] }

/-- One iteration of the token loop of `resolveFlowCollection`. -/
def flowStep (strict : Bool) (isMap : Bool) (s : FlowState) (tok : FTok) : FlowState :=
  match tok with
  | .space src => advance { s with hasSpace := true } src
  | .commentTok src =>
    let s := if strict && !s.hasSpace then pushErr s .commentSpace else s
    let cb := src.drop 1
    let comment' := if s.comment = "" then cb else s.comment ++ s.newlines ++ cb
    advance { s with comment := comment', atLineStart := false, newlines := "" } src
  | .newline src =>
    let s := if s.atLineStart && s.comment = "" then { s with spaceBefore := true } else s
    let s :=
      if s.atValueEnd then
        let s := if s.comment ≠ "" then
            { setTrailingComment s s.comment with comment := "" }
          else s
        { s with atValueEnd := false }
      else
        let s := { s with newlines := s.newlines ++ src }
        if !isMap && s.key.isNone && s.value.isSome then
          { s with nlAfterValueInSeq := true }
        else s
    advance { s with atLineStart := true, hasSpace := true } src
  | .anchorTok src =>
    let s := if s.anchor ≠ "" then pushErr s .multipleAnchors else s
    advance { s with anchor := src.drop 1, atLineStart := false,
                     atValueEnd := false, hasSpace := false } src
  | .tagTok src resolved =>
    let s := if s.tagName ≠ "" then pushErr s .multipleTags else s
    let s :=
      match resolved with
      | none => pushErr s .tagResolveFailed
      | some tn => if tn ≠ "" then { s with tagName := tn } else s
    advance { s with atLineStart := false, atValueEnd := false, hasSpace := false } src
  | .explicitKeyInd src =>
    let s := if s.anchor ≠ "" || s.tagName ≠ "" then pushErr s .propBeforeSep else s
    advance { s with atExplicitKey := true, atLineStart := false,
                     atValueEnd := false, hasSpace := false } src
  | .mapValueInd src =>
    let s :=
      match s.key, s.value with
      | some k, some v =>
        let s := pushErr s .blockAsImplicitKey
        let m := FNode.wrapMap true (some (fnodeRangeStart k, fnodeRangeEnd v))
          [(k, some v)] none
        { s with key := some m, value := none }
      | some _, none => s
      | none, some v =>
        let s :=
          if strict then
            if s.nlAfterValueInSeq then pushErr s .multilineImplicitKey
            else
              match s.seqKeyToken with
              | some t =>
                let s := if t.hasNewline then pushErr s .multilineImplicitKey else s
                let s := if (t.offset : Int) < (s.offset : Int) - 1024 then
                    pushErr s .keyOver1024Chars
                  else s
                { s with seqKeyToken := none }
              | none => s
          else s
        { s with key := some v, value := none }
      | none, none =>
        let ps := getProps s
        { ps.2 with key := some (FNode.emptyNode ps.2.offset ps.1 none) }
    let s :=
      if s.comment ≠ "" then
        { s with key := s.key.map (setComment s.comment), comment := "" }
      else s
    advance { s with atExplicitKey := false, atValueEnd := false, hasSpace := false } src
  | .commaTok src =>
    let s :=
      if s.key.isSome || s.value.isSome || s.anchor ≠ "" || s.tagName ≠ "" ||
          s.atExplicitKey then
        addItem isMap s
      else pushErr s .unexpectedToken
    advance { s with key := none, value := none, atExplicitKey := false,
                     atValueEnd := true, hasSpace := false,
                     nlAfterValueInSeq := false, seqKeyToken := none } src
  | .nodeTok meta =>
    let s := if meta.isBlock then pushErr s .blockInFlow else s
    let s := if s.value.isSome then pushErr s .missingChar else s
    let s := if !isMap && s.key.isNone && !s.atExplicitKey then
        { s with seqKeyToken := some meta }
      else s
    let ps := getProps s
    { ps.2 with value := some (FNode.composed meta.id meta.offset meta.endOffset ps.1 none),
                offset := meta.endOffset, atLineStart := false,
                atValueEnd := false, hasSpace := false }

/-- The result of `resolveFlowCollection`: a flow `YAMLMap`/`YAMLSeq` with
its items, optional comment, range, and the errors reported. -/
structure FlowColl where
  isMap : Bool
  fl : Bool
  items : List FlowItem
  comment : Option String
  range : Nat × Nat
  errors : List (Nat × ECode)

/-- Modelled from the spec: `resolveEnd` (src/compose/resolve-end.ts is not
under src/) consumes the tokens after the closing bracket, collecting any
trailing comment and advancing the offset past their sources.  End tokens
are given as (source, is-comment) pairs. -/
def resolveEndModel (ee : List (String × Bool)) (offset : Nat) :
    String × Nat :=
  (String.join ((ee.filter (·.2)).map (fun p => p.1.drop 1)),
   offset + (ee.map (fun p => p.1.length)).sum)

/-- The initial loop state: `offset = fc.offset + 1`. -/
def initFlowState (fcOffset : Nat) : FlowState :=
  { key := none, value := none, spaceBefore := false, comment := "",
    hasSpace := false, newlines := "", anchor := "", tagName := "",
    offset := fcOffset + 1, atLineStart := false, atExplicitKey := false,
    atValueEnd := false, nlAfterValueInSeq := false, seqKeyToken := none,
    items := [], errors := [] }

/-- `resolveFlowCollection`: `fc.start.source === '{'` selects map mode;
run the token loop, flush any pending item, then check the closing
bracket and resolve the end tokens. -/
def resolveFlowCollection (strict : Bool) (startSrc : String) (fcOffset : Nat)
    (toks : List FTok) (endToks : List (String × Bool)) : FlowColl :=
  let isMap := startSrc = "\x7b"
  let s := toks.foldl (flowStep strict isMap) (initFlowState fcOffset)
  let s :=
    if s.key.isSome || s.value.isSome || s.anchor ≠ "" || s.tagName ≠ "" ||
        s.atExplicitKey then
      addItem isMap s
    else s
  let expectedEnd := if isMap then "\x7d" else "]"
  match endToks with
  | [] =>
    let s := pushErr s .missingChar
    { isMap := isMap, fl := true, items := s.items, comment := none,
      range := (fcOffset, s.offset), errors := s.errors }
  | ce :: ee =>
    let s := if ce.1 ≠ expectedEnd then pushErr s .missingChar else s
    let offset := s.offset + ce.1.length
    if ee.isEmpty then
      { isMap := isMap, fl := true, items := s.items, comment := none,
        range := (fcOffset, offset), errors := s.errors }
    else
      let e := resolveEndModel ee offset
      { isMap := isMap, fl := true, items := s.items,
        comment := if e.1 ≠ "" then some s.comment else none,
        range := (fcOffset, e.2), errors := s.errors }

/-! ## Collection stringification (src/stringify/stringifyCollection.ts)

The child items are opaque to `stringifyCollection`: each arrives with its
comment fields and the string `stringify(item, ctx, ...)` renders for it,
plus whether that call fires the `onComment` / `onChompKeep` callbacks. -/

/-- An item of a collection as the stringifier sees it. -/
structure SItem where
  isNodeOrPair : Bool
  spaceBefore : Bool
  commentBefore : Option String
  comment : Option String
  keyHasComment : Bool
  valueHasComment : Bool
  rendered : String
  renderedCallsOnComment : Bool
  renderedCallsOnChompKeep : Bool

/-- An entry of the local `nodes` array: `{comment: bool, str}`. -/
structure SEntry where
  isComment : Bool
  str : String

/-- JavaScript string truthiness of an optional comment. -/
def commentTruthy : Option String → Bool
  | some c => c ≠ ""
  | none => false

/-- The lines of a string, as `s.match(/^.*$/gm)` produces them (splitting
at every newline; a trailing newline yields a final empty line). -/
def splitLines (s : String) : List String :=
  (s.data.foldr
    (fun c acc =>
      match acc with
      | [] => if c = '\n' then [[], []] else [[c]]
      | h :: t => if c = '\n' then [] :: h :: t else (c :: h) :: t)
    [[]]).map String.mk

/-- Whether a string contains a newline (`str.includes('\n')`). -/
def hasNewlineStr (s : String) : Bool :=
  s.data.contains '\n'

/-- Modelled from the spec: `addComment` (src/stringify/addComment.ts is
not under src/): "a trailing item comment is appended after the item on
the same line". -/
def addCommentModel (str : String) (comment : Option String) : String :=
  if commentTruthy comment then str ++ " #" ++ comment.getD "" else str

/-- Modelled from the spec: `Collection.maxFlowStringSingleLineLength`
(src/nodes/Collection.ts is not under src/); the spec names the threshold
without giving its value, which is 60 in the source tree. -/
def maxFlowStringSingleLineLength : Nat := 60

/-- State of the `items.reduce` loop. -/
structure BuildSt where
  nodes : List SEntry
  hasNL : Bool
  chompKeep : Bool

/-- One iteration of the `items.reduce` loop: blank-line and
comment-before pseudo-entries, the flow `hasItemWithNewLine` updates, the
trailing comma, and the appended trailing comment. -/
def processItem (inFlow : Bool) (total : Nat) (st : BuildSt) (p : Nat × SItem) :
    BuildSt :=
  let item := p.2
  let cbT := item.isNodeOrPair && commentTruthy item.commentBefore
  let nodes := st.nodes
  let nodes :=
    if item.isNodeOrPair && !st.chompKeep && item.spaceBefore then
      nodes ++ [{ isComment := true, str := "" }]
    else nodes
  let nodes :=
    if cbT then
      nodes ++ (splitLines (item.commentBefore.getD "")).map
        (fun l => { isComment := true, str := "#" ++ l })
    else nodes
  let comment0 : Option String :=
    if item.isNodeOrPair && commentTruthy item.comment then item.comment else none
  let hasNL := st.hasNL ||
    (inFlow && item.isNodeOrPair &&
      ((!st.chompKeep && item.spaceBefore) || cbT || commentTruthy item.comment ||
        item.keyHasComment || item.valueHasComment))
  let chompKeep := item.renderedCallsOnChompKeep
  let comment0 := if item.renderedCallsOnComment then none else comment0
  let str := item.rendered
  let hasNL := hasNL || (inFlow && hasNewlineStr str)
  let str := if inFlow && p.1 < total - 1 then str ++ "," else str
  let str := addCommentModel str comment0
  let chompKeep := if chompKeep && (commentTruthy comment0 || inFlow) then false else chompKeep
  { nodes := nodes ++ [{ isComment := false, str := str }],
    hasNL := hasNL, chompKeep := chompKeep }

/-- `strings.reduce((sum, str) => sum + str.length + 2, 2)`. -/
def inlineSum (strings : List String) : Nat :=
  strings.foldl (fun a s => a + s.length + 2) 2

/-- The single-line flow form `[ a, b ]`. -/
def singleLineFlow (startCh endCh : String) (strings : List String) : String :=
  startCh ++ " " ++ String.intercalate " " strings ++ " " ++ endCh

/-- The multi-line flow form: each entry on its own line one indent step
beyond the collection's indent, the closing bracket at the collection's
indent. -/
def multiLineFlow (startCh endCh indent indentStep : String)
    (strings : List String) : String :=
  (strings.foldl
    (fun acc s => acc ++ (if s ≠ "" then "\n" ++ indentStep ++ indent ++ s else "\n"))
    startCh) ++ "\n" ++ indent ++ endCh

/-- `stringifyCollection(collection, ctx, options)`.  The collection is
given by its `comment`, `flow` flag and items; the context by `indent`,
`indentStep` and `inFlow`; the options by the bracket pair, `itemIndent`
and `blockItem`. -/
def stringifyCollection (collComment : Option String) (collFlow : Bool)
    (items : List SItem) (indent indentStep : String) (ctxInFlow : Bool)
    (startCh endCh itemIndent0 : String) (blockItem : SEntry → String) : String :=
  let inFlow := collFlow || ctxInFlow
  let _itemIndent := if inFlow then itemIndent0 ++ indentStep else itemIndent0
  let st := items.enum.foldl (processItem inFlow items.length)
    { nodes := [], hasNL := false, chompKeep := false }
  let str :=
    if st.nodes.isEmpty then startCh ++ endCh
    else if inFlow then
      let strings := st.nodes.map (·.str)
      if st.hasNL || inlineSum strings > maxFlowStringSingleLineLength then
        multiLineFlow startCh endCh indent indentStep strings
      else singleLineFlow startCh endCh strings
    else
      let strings := st.nodes.map blockItem
      match strings with
      | [] => ""
      | first :: rest =>
        rest.foldl
          (fun acc s => acc ++ (if s ≠ "" then "\n" ++ indent ++ s else "\n"))
          first
  if commentTruthy collComment then
    str ++ "\n" ++ String.intercalate "\n"
      ((splitLines (collComment.getD "")).map (fun l => indent ++ "#" ++ l))
  else str

/-! ## parseDocument (src/index.ts, in src/compose/resolve-flow-collection.ts's
second part) -/

/-- A composed document as `parseDocument`'s callback sees it: its range
start, its error list (offset and code), and whether the effective
`logLevel` option is `silent`. -/
structure PDoc where
  rangeStart : Nat
  errors : List (Nat × String)
  logLevelSilent : Bool
deriving Repr, DecidableEq

/-- The document callback of `parseDocument`, folded over the stream of
documents the composer produces (Parser and Composer are not under src/;
the composed stream is taken as given — modelled from the spec's pipeline
description).  The first document is kept; each later document appends a
MULTIPLE_DOCS error to the first document's errors unless `logLevel` is
`silent`. -/
def parseDocumentFold (docs : List PDoc) : Option PDoc :=
  docs.foldl
    (fun acc d =>
      match acc with
      | none => some d
      | some doc =>
        if doc.logLevelSilent then some doc
        else some { doc with errors := doc.errors ++ [(d.rangeStart, "MULTIPLE_DOCS")] })
    none

/-! ## Spec-side characterizations used by the claim theorems -/

/-- Spec side of C8's `get`: the item at the index, "unwrapping a Scalar
item to its value unless keepScalar is truthy". -/
def unwrapItem (keepScalar : Bool) : JItem → GetRes
  | .scalarNode i w => if keepScalar then .item (.scalarNode i w) else .value w
  | it => .item it

/-- Spec side of C7: an item forces the multi-line flow layout when its
rendering contains a newline, or it is a node/pair with a leading blank
line, a comment before, its own comment, or (for pairs) a key or value
comment. -/
def itemBreaksFlow (it : SItem) : Bool :=
  (it.isNodeOrPair &&
    (it.spaceBefore || commentTruthy it.commentBefore || commentTruthy it.comment ||
      it.keyHasComment || it.valueHasComment)) ||
  hasNewlineStr it.rendered

/-- The trailing comment that survives to `addComment` for an item. -/
def flowTrailingComment (it : SItem) : Option String :=
  if it.renderedCallsOnComment then none
  else if it.isNodeOrPair && commentTruthy it.comment then it.comment else none

/-- The entries one item contributes to the `nodes` array in flow context
(previous `chompKeep` being always false there): an optional blank entry,
the comment-before lines, then the item's rendering with its comma and
trailing comment. -/
def flowItemEntries (total : Nat) (p : Nat × SItem) : List String :=
  (if p.2.isNodeOrPair && p.2.spaceBefore then [""] else []) ++
  (if p.2.isNodeOrPair && commentTruthy p.2.commentBefore then
    (splitLines (p.2.commentBefore.getD "")).map (fun l => "#" ++ l)
  else []) ++
  [addCommentModel (if p.1 < total - 1 then p.2.rendered ++ "," else p.2.rendered)
    (flowTrailingComment p.2)]

/-- All entry strings of a flow collection's items. -/
def flowEntryStrings (items : List SItem) : List String :=
  (items.enum.map (flowItemEntries items.length)).flatten

/-! ## Claim theorems -/

/-- C1: For every document and every alias converted with a non-negative
`maxAliasCount`, conversion fails with the excess-alias-count error exactly
when the referenced anchor's count of references (including the one being
made) times its alias-subtree size exceeds `maxAliasCount`; for every
negative `maxAliasCount` the guard is disabled entirely and no such error
is raised. -/
theorem alias_count_guard (doc : YDoc) (aliasId : Nat) (src : String)
    (anchors : Anchors) (maxAliasCount : Int) :
    (maxAliasCount < 0 →
      aliasToJSON doc aliasId src anchors maxAliasCount ≠
        Except.error ToJSErr.excessiveAlias) ∧
    (0 ≤ maxAliasCount →
      ∀ source data r,
        resolveGo aliasId src (docPreorder doc) none = some source →
        anchorsGet anchors (nodeId source) = some data →
        data.res = some r →
        (aliasToJSON doc aliasId src anchors maxAliasCount =
            Except.error ToJSErr.excessiveAlias ↔
          maxAliasCount <
            (((data.count + 1) *
              (if data.aliasCount = 0 then getAliasCount doc anchors source
               else data.aliasCount) : Nat) : Int))) := by
  constructor
  · intro hneg
    have hnle : ¬ (0 ≤ maxAliasCount) := not_le.mpr hneg
    cases hres : resolveGo aliasId src (docPreorder doc) none with
    | none => simp [aliasToJSON, hres]
    | some source =>
      cases hget : anchorsGet anchors (nodeId source) with
      | none => simp [aliasToJSON, hres, hget]
      | some data =>
        cases hr : data.res with
        | none => simp [aliasToJSON, hres, hget, hr]
        | some r => simp [aliasToJSON, hres, hget, hr, hnle]
  · intro hpos source data r hres hget hr
    simp only [aliasToJSON, hres, hget, hr, if_pos hpos]
    by_cases hc :
        maxAliasCount <
          (((data.count + 1) *
            (if data.aliasCount = 0 then getAliasCount doc anchors source
             else data.aliasCount) : Nat) : Int)
    · rw [if_pos (by exact_mod_cast hc)]
      exact ⟨fun _ => hc, fun _ => rfl⟩
    · rw [if_neg (by exact_mod_cast hc)]
      exact ⟨fun h => absurd h (by simp), fun h => absurd h hc⟩

/-- C1 witness: a document `[&a x, *a]` with the anchor entry fresh
(`count = 0`, `aliasCount` uncached, `res` resolved) and
`maxAliasCount = 0`: the guard computes `1 * 1 > 0` and fails. -/
theorem alias_count_guard_witness :
    aliasToJSON
        { contents := some (.seq 10 none
            (.cons (.scalar 1 (some "a")) (.cons (.aliasN 2 "a") .nil))) }
        2 "a" [(1, { count := 0, aliasCount := 0, res := some 0 })] 0 =
      Except.error ToJSErr.excessiveAlias := by
  have h := (alias_count_guard
      { contents := some (.seq 10 none
          (.cons (.scalar 1 (some "a")) (.cons (.aliasN 2 "a") .nil))) }
      2 "a" [(1, { count := 0, aliasCount := 0, res := some 0 })] 0).2
    (by decide) (.scalar 1 (some "a"))
    { count := 0, aliasCount := 0, res := some 0 } 0 rfl rfl rfl
  exact h.mpr (by decide)

/-- C2 counterexample: with `maxAliasCount = 0`, converting a document
containing a single well-formed alias (`[&a x, *a]`, anchor set on an
earlier node) does NOT succeed: it raises the excessive-alias-count
error (`1 * 1 > 0`). -/
theorem max_alias_count_zero_cex :
    aliasToJSON
        { contents := some (.seq 10 none
            (.cons (.scalar 1 (some "a")) (.cons (.aliasN 2 "a") .nil))) }
        2 "a" [(1, { count := 0, aliasCount := 0, res := some 0 })] 0 =
      Except.error ToJSErr.excessiveAlias := rfl

/-- C2 amended: with `maxAliasCount = 0`, converting any alias whose
anchor resolves (fresh entry: no references counted yet, alias-subtree
size uncached, result resolved) fails with the excessive-alias-count
error whenever the anchored node's alias-subtree size is positive (as it
is for every scalar); `maxAliasCount: 0` disallows such aliases. -/
theorem max_alias_count_zero_fails (doc : YDoc) (aliasId : Nat) (src : String)
    (anchors : Anchors) (source : YNode) (r : Nat)
    (hres : resolveGo aliasId src (docPreorder doc) none = some source)
    (hget : anchorsGet anchors (nodeId source) =
      some { count := 0, aliasCount := 0, res := some r })
    (hpos : 1 ≤ getAliasCount doc anchors source) :
    aliasToJSON doc aliasId src anchors 0 = Except.error ToJSErr.excessiveAlias := by
  simp only [aliasToJSON, hres, hget]
  have hgt : ((0 : Int) < (((0 + 1) * getAliasCount doc anchors source : Nat) : Int)) := by
    have h1 : (1 : Nat) ≤ (0 + 1) * getAliasCount doc anchors source := by simpa using hpos
    exact_mod_cast Nat.lt_of_lt_of_le Nat.zero_lt_one h1
  simp [hgt, Nat.pos_iff_ne_zero.mp hpos]

/-- C2 amended witness: the concrete `[&a x, *a]` document at
`maxAliasCount = 0`. -/
theorem max_alias_count_zero_fails_witness :
    aliasToJSON
        { contents := some (.seq 10 none
            (.cons (.scalar 1 (some "a")) (.cons (.aliasN 2 "a") .nil))) }
        2 "a" [(1, { count := 0, aliasCount := 0, res := some 0 })] 0 =
      Except.error ToJSErr.excessiveAlias :=
  max_alias_count_zero_fails
    { contents := some (.seq 10 none
        (.cons (.scalar 1 (some "a")) (.cons (.aliasN 2 "a") .nil))) }
    2 "a" [(1, { count := 0, aliasCount := 0, res := some 0 })]
    (.scalar 1 (some "a")) 0 rfl rfl (by decide)

/-- Splitting `resolveGo` at a prefix none of whose nodes is the alias:
the prefix only updates the accumulator. -/
theorem resolveGo_append (i : Nat) (src : String) (pre post : List YNode)
    (acc : Option YNode) (h : ∀ n ∈ pre, nodeId n ≠ i) :
    resolveGo i src (pre ++ post) acc =
      resolveGo i src post
        (pre.foldl (fun f n => if nodeAnchor n = some src then some n else f) acc) := by
  induction pre generalizing acc with
  | nil => simp
  | cons n rest ih =>
    have hn : nodeId n ≠ i := h n (List.mem_cons_self _ _)
    simp only [List.cons_append, resolveGo, if_neg hn, List.foldl_cons]
    exact ih _ (fun m hm => h m (List.mem_cons_of_mem _ hm))

/-- The accumulator fold finds the last anchor match of the list. -/
theorem foldl_anchor_find (src : String) (pre : List YNode) (acc : Option YNode) :
    pre.foldl (fun f n => if nodeAnchor n = some src then some n else f) acc =
      match pre.reverse.find? (fun n => nodeAnchor n == some src) with
      | some n => some n
      | none => acc := by
  induction pre generalizing acc with
  | nil => simp
  | cons n rest ih =>
    simp only [List.foldl_cons, List.reverse_cons, List.find?_append]
    rw [ih]
    cases hfind : rest.reverse.find? (fun n => nodeAnchor n == some src) with
    | some m => simp
    | none =>
      by_cases hn : nodeAnchor n = some src
      · have hb : (nodeAnchor n == some src) = true := beq_iff_eq.mpr hn
        simp [List.find?, hn, hb]
      · have hb : (nodeAnchor n == some src) = false := beq_eq_false_iff_ne.mpr hn
        simp [List.find?, hn, hb]

/-- C3: `Alias.resolve` returns the last node in document (source) order
that precedes the alias and whose anchor equals the alias's source label;
with reused labels, the latest match shadows earlier ones. -/
theorem alias_resolve_last (doc : YDoc) (i : Nat) (src : String)
    (pre post : List YNode)
    (hsplit : docPreorder doc = pre ++ YNode.aliasN i src :: post)
    (hnodup : ((docPreorder doc).map nodeId).Nodup) :
    resolveAlias doc i src =
      pre.reverse.find? (fun n => nodeAnchor n == some src) := by
  have hpre : ∀ n ∈ pre, nodeId n ≠ i := by
    intro n hn heq
    rw [hsplit] at hnodup
    rw [List.map_append] at hnodup
    have hdisj := (List.nodup_append.mp hnodup).2.2
    exact hdisj (heq ▸ List.mem_map_of_mem nodeId hn)
      (by simp [nodeId])
  unfold resolveAlias
  rw [hsplit, resolveGo_append i src pre _ none hpre]
  have hstop :
      resolveGo i src (YNode.aliasN i src :: post)
        (pre.foldl (fun f n => if nodeAnchor n = some src then some n else f) none) =
      pre.foldl (fun f n => if nodeAnchor n = some src then some n else f) none := by
    simp [resolveGo, nodeId]
  rw [hstop, foldl_anchor_find]
  cases h : pre.reverse.find? (fun n => nodeAnchor n == some src) <;> simp

/-- C3 witness: in `[&a x, &a y, *a]` the alias resolves to the second
(`&a y`) node: the later anchor shadows the earlier one. -/
theorem alias_resolve_last_witness :
    resolveAlias
        { contents := some (.seq 9 none
            (.cons (.scalar 1 (some "a"))
              (.cons (.scalar 2 (some "a")) (.cons (.aliasN 3 "a") .nil)))) }
        3 "a" = some (.scalar 2 (some "a")) :=
  (alias_resolve_last
      { contents := some (.seq 9 none
          (.cons (.scalar 1 (some "a"))
            (.cons (.scalar 2 (some "a")) (.cons (.aliasN 3 "a") .nil)))) }
      3 "a"
      [.seq 9 none
          (.cons (.scalar 1 (some "a"))
            (.cons (.scalar 2 (some "a")) (.cons (.aliasN 3 "a") .nil))),
        .scalar 1 (some "a"), .scalar 2 (some "a")]
      [] rfl (by decide)).trans rfl

/-- C4: an alias whose label matches no earlier anchor: `toJSON` (with a
context) fails with the unresolved-alias reference error; `toString`
fails only when `verifyAliasOrder` is set and the anchor has not been
emitted, and otherwise silently emits `*label` (plus the implicit-key
separator space). -/
theorem alias_unresolved (doc : YDoc) (aliasId : Nat) (src : String)
    (anchors : Anchors) (maxAliasCount : Int) (sctx : StrCtx)
    (hres : resolveGo aliasId src (docPreorder doc) none = none)
    (hvalid : anchorIsValid src = true)
    (hnot : sctx.anchors.contains src = false) :
    aliasToJSON doc aliasId src anchors maxAliasCount =
      Except.error ToJSErr.unresolvedAlias ∧
    (sctx.verifyAliasOrder = true →
      aliasToString src (some sctx) = Except.error StrErr.unresolvedAlias) ∧
    (sctx.verifyAliasOrder = false →
      aliasToString src (some sctx) =
        Except.ok ("*" ++ src ++ if sctx.implicitKey then " " else "")) := by
  refine ⟨?_, ?_, ?_⟩
  · simp only [aliasToJSON, hres]
  · intro hv
    simp only [aliasToString]
    rw [hvalid, hv, hnot]
    simp
  · intro hv
    simp only [aliasToString]
    rw [hvalid, hv]
    by_cases hik : sctx.implicitKey <;> simp [hik]

/-- C4 witness: the empty document with alias label `x`, stringified as an
implicit key without `verifyAliasOrder`. -/
theorem alias_unresolved_witness :
    aliasToJSON { contents := none } 0 "x" [] 100 =
      Except.error ToJSErr.unresolvedAlias ∧
    aliasToString "x"
        (some { verifyAliasOrder := false, anchors := [], implicitKey := true }) =
      Except.ok "*x " := by
  have h := alias_unresolved { contents := none } 0 "x" [] 100
    { verifyAliasOrder := false, anchors := [], implicitKey := true }
    rfl (by decide) (by decide)
  exact ⟨h.1, h.2.2 rfl⟩

/-- C10: a collection with zero items stringifies as the flow-style empty
form — the two brackets with nothing between them — for every context,
also in block context with the collection not marked as flow. -/
theorem empty_collection_flow_brackets (collFlow ctxInFlow : Bool)
    (indent indentStep startCh endCh itemIndent0 : String)
    (blockItem : SEntry → String) :
    stringifyCollection none collFlow [] indent indentStep ctxInFlow
      startCh endCh itemIndent0 blockItem = startCh ++ endCh := rfl

/-- C6 counterexample: a source composing to two documents under
`logLevel: 'silent'`: `parseDocument` returns the first document with no
MULTIPLE_DOCS error appended. -/
theorem parse_document_multiple_docs_cex :
    parseDocumentFold
        [{ rangeStart := 0, errors := [], logLevelSilent := true },
         { rangeStart := 5, errors := [], logLevelSilent := true }] =
      some { rangeStart := 0, errors := [], logLevelSilent := true } := rfl

/-- The accumulator step of `parseDocumentFold` on a non-silent first
document. -/
theorem parseDocumentFold_go (ds : List PDoc) (acc : PDoc)
    (h : acc.logLevelSilent = false) :
    ds.foldl
      (fun a d =>
        match a with
        | none => some d
        | some doc =>
          if doc.logLevelSilent then some doc
          else some { doc with errors := doc.errors ++ [(d.rangeStart, "MULTIPLE_DOCS")] })
      (some acc) =
    some { acc with errors :=
      acc.errors ++ ds.map (fun x => (x.rangeStart, "MULTIPLE_DOCS")) } := by
  induction ds generalizing acc with
  | nil => simp
  | cons d rest ih =>
    simp only [List.foldl_cons, h, if_neg Bool.false_ne_true, List.map_cons]
    rw [ih { rangeStart := acc.rangeStart,
             errors := acc.errors ++ [(d.rangeStart, "MULTIPLE_DOCS")],
             logLevelSilent := false } rfl]
    simp

/-- C6 amended: `parseDocument` on a stream of more than one composed
document returns the first document, and appends one MULTIPLE_DOCS error
(at each extra document's range start) to that document's errors for each
additional document — unless `logLevel` is `silent`, in which case the
extra documents are dropped without recording any error. -/
theorem parse_document_multiple_docs (d : PDoc) (ds : List PDoc)
    (h : d.logLevelSilent = false) :
    parseDocumentFold (d :: ds) =
      some { d with errors :=
        d.errors ++ ds.map (fun x => (x.rangeStart, "MULTIPLE_DOCS")) } := by
  unfold parseDocumentFold
  simp only [List.foldl_cons]
  exact parseDocumentFold_go ds d h

/-- C6 amended witness: three non-silent documents yield the first with
two MULTIPLE_DOCS errors at the extra documents' range starts. -/
theorem parse_document_multiple_docs_witness :
    parseDocumentFold
        [{ rangeStart := 0, errors := [], logLevelSilent := false },
         { rangeStart := 5, errors := [], logLevelSilent := false },
         { rangeStart := 9, errors := [], logLevelSilent := false }] =
      some { rangeStart := 0,
             errors := [(5, "MULTIPLE_DOCS"), (9, "MULTIPLE_DOCS")],
             logLevelSilent := false } :=
  parse_document_multiple_docs
    { rangeStart := 0, errors := [], logLevelSilent := false }
    [{ rangeStart := 5, errors := [], logLevelSilent := false },
     { rangeStart := 9, errors := [], logLevelSilent := false }] rfl

/-- C8: sequence access through `asItemIndex`: a key that does not
represent a non-negative integer makes `get` return undefined, `has`
return false, `delete` return false (leaving the items unchanged), and
`set` throw; a key representing index `n` makes `get` return the item at
`n`, unwrapping a wrapping `Scalar` to its value unless `keepScalar` is
truthy. -/
theorem seq_index_contract (items : List JItem) (key : SeqKey)
    (keepScalar : Bool) (v : JItem) :
    (asItemIndex key = none →
      seqGet items key keepScalar = none ∧
      seqHas items key = false ∧
      seqDelete items key = (false, items) ∧
      seqSet items key v = Except.error "Expected a valid index") ∧
    (∀ n, asItemIndex key = some n →
      seqGet items key keepScalar = (items.get? n).map (unwrapItem keepScalar)) := by
  constructor
  · intro h
    refine ⟨?_, ?_, ?_, ?_⟩ <;> simp [seqGet, seqHas, seqDelete, seqSet, h]
  · intro n h
    simp only [seqGet, h]
    cases hit : items.get? n with
    | none => simp
    | some it =>
      cases it with
      | scalarNode i w => cases keepScalar <;> simp [unwrapItem, jitemIsScalar]
      | plainVal w => cases keepScalar <;> simp [unwrapItem, jitemIsScalar]
      | collNode i => cases keepScalar <;> simp [unwrapItem, jitemIsScalar]

/-- C8 witness: on `[Scalar(7), collection]`, the key `"x"` is rejected by
`get`/`has`, and the Scalar-wrapped key `"0"` fetches and unwraps the
scalar item. -/
theorem seq_index_contract_witness :
    seqGet [JItem.scalarNode 1 (.int 7), JItem.collNode 2] (.plain (.str "x")) false = none ∧
    seqHas [JItem.scalarNode 1 (.int 7), JItem.collNode 2] (.plain (.str "x")) = false ∧
    seqGet [JItem.scalarNode 1 (.int 7), JItem.collNode 2] (.scalarK (.str "0")) false =
      some (.value (.int 7)) := by
  have h := seq_index_contract [JItem.scalarNode 1 (.int 7), JItem.collNode 2]
    (.plain (.str "x")) false (JItem.plainVal .nullv)
  have h2 := seq_index_contract [JItem.scalarNode 1 (.int 7), JItem.collNode 2]
    (.scalarK (.str "0")) false (JItem.plainVal .nullv)
  exact ⟨(h.1 rfl).1, (h.1 rfl).2.1, (h2.2 0 rfl).trans rfl⟩

/-- `addItem` on a flow sequence outside an explicit key pushes a node
(either the bare value or a wrapping flow map), never a `Pair`. -/
theorem addItem_no_pair (s : FlowState) (hek : s.atExplicitKey = false)
    (hit : ∀ it ∈ s.items, flowItemIsPair it = false) :
    (addItem false s).atExplicitKey = false ∧
    ∀ it ∈ (addItem false s).items, flowItemIsPair it = false := by
  cases hv : s.value <;> cases hk : s.key <;>
    (refine ⟨by simp [addItem, getProps, hv, hk, hek], ?_⟩
     intro it hmem
     simp only [addItem, getProps, hv, hk, hek, Bool.false_or, if_false,
       Bool.false_eq_true, ite_false] at hmem
     rcases List.mem_append.mp hmem with h1 | h2
     · exact hit it h1
     · rw [List.mem_singleton.mp h2]; rfl)

/-- `setTrailingComment` does not change `atExplicitKey`. -/
theorem setTrailingComment_atEK (s : FlowState) (c : String) :
    (setTrailingComment s c).atExplicitKey = s.atExplicitKey := by
  unfold setTrailingComment
  cases s.items.getLast? with
  | none => rfl
  | some last =>
    cases last with
    | node n => rfl
    | pairI k v => cases v <;> rfl

/-- `setTrailingComment` rewrites the last item in place without changing
its node/pair shape. -/
theorem setTrailingComment_no_pair (s : FlowState) (c : String)
    (hit : ∀ it ∈ s.items, flowItemIsPair it = false) :
    ∀ it ∈ (setTrailingComment s c).items, flowItemIsPair it = false := by
  unfold setTrailingComment
  cases hl : s.items.getLast? with
  | none => simpa [pushErr] using hit
  | some last =>
    have hmeml : last ∈ s.items := by
      obtain ⟨h, heq⟩ :=
        List.mem_getLast?_eq_getLast (show last ∈ s.items.getLast? from hl)
      exact heq ▸ List.getLast_mem h
    have hlast := hit last hmeml
    cases last with
    | node n =>
      intro it hmem
      rcases List.mem_append.mp hmem with h1 | h2
      · exact hit it (List.dropLast_subset _ h1)
      · rw [List.mem_singleton.mp h2]; rfl
    | pairI k v => simp [flowItemIsPair] at hlast

/-- Each loop step of `resolveFlowCollection` on a flow sequence, given no
explicit-key token, keeps `atExplicitKey` false and pushes no `Pair`. -/
theorem flowStep_no_pair (strict : Bool) (s : FlowState) (t : FTok)
    (hek : s.atExplicitKey = false)
    (hit : ∀ it ∈ s.items, flowItemIsPair it = false)
    (ht : ∀ src, t ≠ FTok.explicitKeyInd src) :
    (flowStep strict false s t).atExplicitKey = false ∧
    ∀ it ∈ (flowStep strict false s t).items, flowItemIsPair it = false := by
  cases t with
  | space src => exact ⟨hek, hit⟩
  | commentTok src =>
    refine ⟨?_, ?_⟩
    · simp [flowStep, advance, pushErr, apply_ite FlowState.atExplicitKey, hek]
    · intro it hmem
      simp only [flowStep, advance, pushErr, apply_ite FlowState.items,
        ite_self] at hmem
      exact hit it hmem
  | newline src =>
    refine ⟨?_, ?_⟩
    · simp [flowStep, advance, pushErr, apply_ite FlowState.atExplicitKey,
        setTrailingComment_atEK, hek]
    · intro it hmem
      simp only [flowStep, advance, pushErr, apply_ite FlowState.items,
        ite_self] at hmem
      split at hmem
      all_goals first
        | exact hit it hmem
        | (refine setTrailingComment_no_pair _ _ ?_ it hmem
           intro x hx
           exact hit x hx)
        | (split at hmem
           all_goals first
             | exact hit it hmem
             | (refine setTrailingComment_no_pair _ _ ?_ it hmem
                intro x hx
                exact hit x hx)
             | (split at hmem
                all_goals first
                  | exact hit it hmem
                  | (refine setTrailingComment_no_pair _ _ ?_ it hmem
                     intro x hx
                     exact hit x hx)))
  | anchorTok src =>
    refine ⟨?_, ?_⟩
    · simp [flowStep, advance, pushErr, apply_ite FlowState.atExplicitKey, hek]
    · intro it hmem
      simp only [flowStep, advance, pushErr, apply_ite FlowState.items,
        ite_self] at hmem
      exact hit it hmem
  | tagTok src resolved =>
    cases resolved with
    | none =>
      refine ⟨?_, ?_⟩
      · simp [flowStep, advance, pushErr, apply_ite FlowState.atExplicitKey, hek]
      · intro it hmem
        simp only [flowStep, advance, pushErr, apply_ite FlowState.items,
          ite_self] at hmem
        exact hit it hmem
    | some tn =>
      refine ⟨?_, ?_⟩
      · simp [flowStep, advance, pushErr, apply_ite FlowState.atExplicitKey, hek]
      · intro it hmem
        simp only [flowStep, advance, pushErr, apply_ite FlowState.items,
          ite_self] at hmem
        exact hit it hmem
  | explicitKeyInd src => exact absurd rfl (ht src)
  | mapValueInd src =>
    cases hk : s.key <;> cases hv : s.value <;> cases hsk : s.seqKeyToken <;>
      (refine ⟨?_, ?_⟩
       · simp [flowStep, advance, pushErr, getProps, hk, hv, hsk,
           apply_ite FlowState.atExplicitKey]
       · intro it hmem
         simp only [flowStep, advance, pushErr, getProps, hk, hv, hsk,
           apply_ite FlowState.items, ite_self] at hmem
         exact hit it hmem)
  | commaTok src =>
    refine ⟨?_, ?_⟩
    · simp [flowStep, advance, pushErr, apply_ite FlowState.atExplicitKey]
    · intro it hmem
      simp only [flowStep, advance, pushErr, apply_ite FlowState.items,
        ite_self] at hmem
      split at hmem
      · exact (addItem_no_pair s hek hit).2 it hmem
      · exact hit it hmem
  | nodeTok meta =>
    refine ⟨?_, ?_⟩
    · simp [flowStep, advance, pushErr, getProps, apply_ite FlowState.atExplicitKey, hek]
    · intro it hmem
      simp only [flowStep, advance, pushErr, getProps,
        apply_ite FlowState.items, ite_self] at hmem
      exact hit it hmem

/-- The loop preserves the no-`Pair` invariant over any token list free of
explicit-key indicators. -/
theorem foldl_flowStep_no_pair (strict : Bool) (toks : List FTok) (s : FlowState)
    (hek : s.atExplicitKey = false)
    (hit : ∀ it ∈ s.items, flowItemIsPair it = false)
    (htoks : ∀ t ∈ toks, ∀ src, t ≠ FTok.explicitKeyInd src) :
    (toks.foldl (flowStep strict false) s).atExplicitKey = false ∧
    ∀ it ∈ (toks.foldl (flowStep strict false) s).items,
      flowItemIsPair it = false := by
  induction toks generalizing s with
  | nil => exact ⟨hek, hit⟩
  | cons t rest ih =>
    have hstep := flowStep_no_pair strict s t hek hit
      (fun src => htoks t (List.mem_cons_self _ _) src)
    exact ih (flowStep strict false s t) hstep.1 hstep.2
      (fun u hu src => htoks u (List.mem_cons_of_mem _ hu) src)

/-- C9: composing a flow sequence whose tokens contain no explicit-key
indicator never pushes a bare `Pair` into the sequence's items: the
implicit key-value pair is wrapped in a single-pair flow map, so every
item of the composed flow sequence is a node. -/
theorem flow_seq_items_are_nodes (strict : Bool) (fcOffset : Nat)
    (toks : List FTok) (endToks : List (String × Bool))
    (htoks : ∀ t ∈ toks, ∀ src, t ≠ FTok.explicitKeyInd src) :
    ∀ it ∈ (resolveFlowCollection strict "[" fcOffset toks endToks).items,
      flowItemIsPair it = false := by
  have hbr : (decide ("[" = "\x7b")) = false := rfl
  simp only [resolveFlowCollection, hbr]
  have hinv := foldl_flowStep_no_pair strict toks (initFlowState fcOffset)
    rfl (by intro it h; cases h) htoks
  set s1 := toks.foldl (flowStep strict false) (initFlowState fcOffset) with hs1
  have hflush :
      ∀ it ∈ (if s1.key.isSome || s1.value.isSome || s1.anchor ≠ "" || s1.tagName ≠ "" ||
          s1.atExplicitKey then addItem false s1 else s1).items,
        flowItemIsPair it = false := by
    split
    · exact (addItem_no_pair s1 hinv.1 hinv.2).2
    · exact hinv.2
  cases endToks with
  | nil => simpa [pushErr] using hflush
  | cons ce ee =>
    by_cases hce : ce.1 ≠ "]"
    all_goals by_cases hee : ee.isEmpty = true
    all_goals simp_all [pushErr]

/-- C5 counterexample: a strict-mode option is required: with
`strict: false`, a flow sequence `[ key : value ]` whose `:` lies 1099
characters after the key's start produces no error at all. -/
theorem key_over_1024_chars_cex :
    (resolveFlowCollection false "[" 0
        [.nodeTok { offset := 1, hasNewline := false, id := 0,
                    endOffset := 1100, isBlock := false },
         .mapValueInd ":",
         .nodeTok { offset := 1102, hasNewline := false, id := 1,
                    endOffset := 1103, isBlock := false }]
        [("]", false)]).errors = [] := rfl

/-- C5 amended: composing `[ key : value ]` (key and `:` on one line), the
composer reports KEY_OVER_1024_CHARS at the `:` position exactly when in
strict mode and the `:` lies more than 1024 source characters after the
key token's start; a multiline key additionally reports
MULTILINE_IMPLICIT_KEY. -/
theorem key_over_1024_chars (strict : Bool) (fcOffset : Nat) (m m2 : NodeMeta)
    (csrc : String) (hb : m.isBlock = false) (hb2 : m2.isBlock = false) :
    (resolveFlowCollection strict "[" fcOffset
        [.nodeTok m, .mapValueInd csrc, .nodeTok m2] [("]", false)]).errors =
      (if strict = true ∧ m.hasNewline = true then
        [(m.endOffset, ECode.multilineImplicitKey)] else []) ++
      (if strict = true ∧ m.offset + 1024 < m.endOffset then
        [(m.endOffset, ECode.keyOver1024Chars)] else []) := by
  have hcast : ((m.offset : Int) < (m.endOffset : Int) - 1024) ↔
      (m.offset + 1024 < m.endOffset) := by omega
  cases strict with
  | false =>
    simp [resolveFlowCollection, flowStep, advance, pushErr, getProps, addItem,
      initFlowState, hb, hb2]
  | true =>
    by_cases hnl : m.hasNewline = true
    all_goals by_cases hcmp : m.offset + 1024 < m.endOffset
    all_goals
      simp [resolveFlowCollection, flowStep, advance, pushErr, getProps, addItem,
        initFlowState, hb, hb2, hnl, hcmp, hcast]

/-- C5 amended witness: the same sequence in strict mode reports
KEY_OVER_1024_CHARS at the `:` offset 1100 (1099 > 1024 characters after
the key start 1). -/
theorem key_over_1024_chars_witness :
    (resolveFlowCollection true "[" 0
        [.nodeTok { offset := 1, hasNewline := false, id := 0,
                    endOffset := 1100, isBlock := false },
         .mapValueInd ":",
         .nodeTok { offset := 1102, hasNewline := false, id := 1,
                    endOffset := 1103, isBlock := false }]
        [("]", false)]).errors = [(1100, ECode.keyOver1024Chars)] :=
  (key_over_1024_chars true 0
    { offset := 1, hasNewline := false, id := 0, endOffset := 1100, isBlock := false }
    { offset := 1102, hasNewline := false, id := 1, endOffset := 1103, isBlock := false }
    ":" rfl rfl).trans rfl

/-- C9 witness: the strict run of the same token list yields a single
item, and it is not a `Pair`. -/
theorem flow_seq_items_are_nodes_witness :
    ((resolveFlowCollection true "[" 0
        [.nodeTok { offset := 1, hasNewline := false, id := 0,
                    endOffset := 1100, isBlock := false },
         .mapValueInd ":",
         .nodeTok { offset := 1102, hasNewline := false, id := 1,
                    endOffset := 1103, isBlock := false }]
        [("]", false)]).items.all (fun it => !flowItemIsPair it)) = true := by
  rw [List.all_eq_true]
  intro it hmem
  have h := flow_seq_items_are_nodes true 0
    [.nodeTok { offset := 1, hasNewline := false, id := 0,
                endOffset := 1100, isBlock := false },
     .mapValueInd ":",
     .nodeTok { offset := 1102, hasNewline := false, id := 1,
                endOffset := 1103, isBlock := false }]
    [("]", false)]
    (by intro t htm src heq
        subst heq
        simp at htm)
    it hmem
  simp [h]

/-- One `processItem` step in flow context (where `chompKeep` is always
false): it appends exactly the item's entries, accumulates
`hasItemWithNewLine` as `itemBreaksFlow`, and resets `chompKeep`. -/
theorem processItem_flow (total : Nat) (st : BuildSt) (p : Nat × SItem)
    (hck : st.chompKeep = false) :
    ((processItem true total st p).nodes.map (fun e => e.str) =
        st.nodes.map (fun e => e.str) ++ flowItemEntries total p) ∧
    (processItem true total st p).hasNL = (st.hasNL || itemBreaksFlow p.2) ∧
    (processItem true total st p).chompKeep = false := by
  obtain ⟨i, it⟩ := p
  obtain ⟨inp, sb, cb, cm, kc, vc, rd, rco, rck⟩ := it
  cases inp <;> cases sb <;> cases rco <;> cases rck <;>
    by_cases hcb : commentTruthy cb = true <;>
      simp [processItem, flowItemEntries, flowTrailingComment, itemBreaksFlow,
        hck, List.map_append, List.map_map, Function.comp_def, Bool.or_assoc,
        List.append_assoc, hcb]

/-- The whole `items.reduce` loop in flow context, from a reset state. -/
theorem foldl_processItem_flow (total : Nat) (l : List (Nat × SItem))
    (st : BuildSt) (hck : st.chompKeep = false) :
    ((l.foldl (processItem true total) st).nodes.map (fun e => e.str) =
        st.nodes.map (fun e => e.str) ++ (l.map (flowItemEntries total)).flatten) ∧
    (l.foldl (processItem true total) st).hasNL =
        (st.hasNL || l.any (fun p => itemBreaksFlow p.2)) ∧
    (l.foldl (processItem true total) st).chompKeep = false := by
  induction l generalizing st with
  | nil => exact ⟨by simp, by simp, hck⟩
  | cons p rest ih =>
    obtain ⟨h1, h2, h3⟩ := processItem_flow total st p hck
    obtain ⟨g1, g2, g3⟩ := ih (processItem true total st p) h3
    refine ⟨?_, ?_, g3⟩
    · simp [List.foldl_cons, g1, h1, List.append_assoc]
    · simp [List.foldl_cons, g2, h2, Bool.or_assoc, List.any_cons]

/-- `any` over an enumerated list ignores the indices. -/
theorem any_enumFrom (l : List SItem) (f : SItem → Bool) :
    ∀ n, ((List.enumFrom n l).any fun p => f p.2) = l.any f := by
  induction l with
  | nil => intro n; rfl
  | cons x xs ih => intro n; simp [List.enumFrom, List.any_cons, ih]

/-- A non-empty item list contributes at least one entry string. -/
theorem flowEntryStrings_ne_nil (items : List SItem) (h : items ≠ []) :
    flowEntryStrings items ≠ [] := by
  cases items with
  | nil => exact absurd rfl h
  | cons x xs =>
    intro hc
    simp [flowEntryStrings, List.enum, List.enumFrom, flowItemEntries,
      List.append_eq_nil] at hc

/-- C7 amended: a non-empty collection stringified in flow context emits
the single-line `[ a, b ]` form exactly when no item breaks the flow (no
rendering with a newline, no leading blank line, no comment before, no own
comment, no pair key/value comment) and the summed inline length stays
within `maxFlowStringSingleLineLength`; otherwise every entry goes on its
own line one indent step beyond the collection's indent with the closing
bracket on its own line at the collection's indent. -/
theorem flow_collection_layout (collFlow ctxInFlow : Bool) (items : List SItem)
    (indent indentStep startCh endCh itemIndent0 : String)
    (blockItem : SEntry → String) (hne : items ≠ [])
    (hflow : (collFlow || ctxInFlow) = true) :
    stringifyCollection none collFlow items indent indentStep ctxInFlow
      startCh endCh itemIndent0 blockItem =
      if (items.any itemBreaksFlow ||
          inlineSum (flowEntryStrings items) > maxFlowStringSingleLineLength) then
        multiLineFlow startCh endCh indent indentStep (flowEntryStrings items)
      else singleLineFlow startCh endCh (flowEntryStrings items) := by
  obtain ⟨h1, h2, h3⟩ := foldl_processItem_flow items.length items.enum
    { nodes := [], hasNL := false, chompKeep := false } rfl
  have hany : (items.enum.any fun p => itemBreaksFlow p.2) = items.any itemBreaksFlow :=
    any_enumFrom items itemBreaksFlow 0
  have hstr :
      (items.enum.foldl (processItem true items.length)
        { nodes := [], hasNL := false, chompKeep := false }).nodes.map (fun e => e.str) =
        flowEntryStrings items := by
    simpa [flowEntryStrings] using h1
  have hnl :
      (items.enum.foldl (processItem true items.length)
        { nodes := [], hasNL := false, chompKeep := false }).hasNL =
        items.any itemBreaksFlow := by
    rw [h2, Bool.false_or, hany]
  have hne2 :
      (items.enum.foldl (processItem true items.length)
        { nodes := [], hasNL := false, chompKeep := false }).nodes ≠ [] := by
    intro hc
    exact flowEntryStrings_ne_nil items hne (by rw [← hstr, hc]; rfl)
  have hie :
      (items.enum.foldl (processItem true items.length)
        { nodes := [], hasNL := false, chompKeep := false }).nodes.isEmpty = false := by
    cases hn : (items.enum.foldl (processItem true items.length)
        { nodes := [], hasNL := false, chompKeep := false }).nodes with
    | nil => exact absurd hn hne2
    | cons a l => rfl
  simp only [stringifyCollection, hflow, hie, hstr, hnl, Bool.false_eq_true,
    if_false, if_true, commentTruthy, ite_false, ite_true]

/-- C7 counterexample: one item with a leading blank line (`spaceBefore`),
rendering `"a"` with no newline and no comment, total inline length 5 ≤ 60:
the output is the multi-line form, not `[ a ]`. -/
theorem flow_single_line_cex :
    stringifyCollection none true
        [{ isNodeOrPair := true, spaceBefore := true, commentBefore := none,
           comment := none, keyHasComment := false, valueHasComment := false,
           rendered := "a", renderedCallsOnComment := false,
           renderedCallsOnChompKeep := false }]
        "" "  " false "[" "]" "  " (fun e => e.str) = "[\n\n  a\n]" ∧
    hasNewlineStr "a" = false ∧
    commentTruthy (none : Option String) = false ∧
    inlineSum ["a"] ≤ maxFlowStringSingleLineLength ∧
    "[\n\n  a\n]" ≠ singleLineFlow "[" "]" ["a"] :=
  ⟨rfl, rfl, rfl, by decide, by decide⟩

/-- C7 amended witness: two plain items render single line. -/
theorem flow_collection_layout_witness :
    stringifyCollection none true
        [{ isNodeOrPair := true, spaceBefore := false, commentBefore := none,
           comment := none, keyHasComment := false, valueHasComment := false,
           rendered := "a", renderedCallsOnComment := false,
           renderedCallsOnChompKeep := false },
         { isNodeOrPair := true, spaceBefore := false, commentBefore := none,
           comment := none, keyHasComment := false, valueHasComment := false,
           rendered := "b", renderedCallsOnComment := false,
           renderedCallsOnChompKeep := false }]
        "" "  " false "[" "]" "  " (fun e => e.str) = "[ a, b ]" :=
  (flow_collection_layout true false
    [{ isNodeOrPair := true, spaceBefore := false, commentBefore := none,
       comment := none, keyHasComment := false, valueHasComment := false,
       rendered := "a", renderedCallsOnComment := false,
       renderedCallsOnChompKeep := false },
     { isNodeOrPair := true, spaceBefore := false, commentBefore := none,
       comment := none, keyHasComment := false, valueHasComment := false,
       rendered := "b", renderedCallsOnComment := false,
       renderedCallsOnChompKeep := false }]
    "" "  " "[" "]" "  " (fun e => e.str)
    (List.cons_ne_nil _ _) rfl).trans rfl

end YamlSpec
